import Mathlib

/-!
Verification of the Gwack CLI route discoverer, config merger, PHP output
classifier, app-shell loader and dev-command option resolution.

A shallow embedding of the JavaScript sources in `src/`:

* `src/plugins/gwack.js` — `generateRoutes`, `generateRoutePath`,
  `generateAppComponent` (and the legacy variant of the plugin).
* `src/config/vite.js` — `mergeEnvIntoRuntimeGwack`, `deepMerge`, `setDeep`,
  `normalizeKey`, `coerce`, `isObject`.
* `src/servers/php.js` — the stderr line classifier built from
  `isPhpWarning`, `isPhpError`, `isPhpRequestLog`.
* `src/cli/build.js` — the `devCommand` port/host resolution
  (`cfg || parseInt(flag) || default`).

JavaScript strings are modelled as Lean `String`, with the string operations
implemented on the underlying character list so that every definition is
executable by the kernel.  JavaScript values (the runtime-config objects) are
modelled by the inductive `JVal`; JavaScript objects become ordered
association lists, mirroring insertion-order key semantics.  The external
builtins `JSON.parse` and `Number` are modelled by executable parsers covering
the decimal/JSON fragment relevant here (no hex literals, no `Infinity`, no
`\uXXXX` escapes, exact rational arithmetic instead of binary floats); the
claims touching them only condition on parse success or failure.
-/

/-! ## Character / string primitives -/

/-- The whitespace class used by JavaScript's `\s` and by `trim`,
restricted to the ASCII characters that can occur here. -/
def wsChar (c : Char) : Bool :=
  c = ' ' || c = '\t' || c = '\n' || c = '\r' || c = '\x0b' || c = '\x0c'

/-- `s.startsWith p` (JavaScript `String.prototype.startsWith`). -/
def sStartsWith (s p : String) : Bool :=
  List.isPrefixOf p.data s.data

/-- `s.endsWith p` (JavaScript `String.prototype.endsWith`). -/
def sEndsWith (s p : String) : Bool :=
  List.isSuffixOf p.data s.data

/-- Drop the first `n` characters (JavaScript `slice(n)`). -/
def sDrop (s : String) (n : Nat) : String :=
  String.mk (s.data.drop n)

/-- Drop the last `n` characters (JavaScript `slice(0, -n)`). -/
def sDropRight (s : String) (n : Nat) : String :=
  String.mk (s.data.take (s.data.length - n))

/-- JavaScript `String.prototype.toLowerCase` on ASCII data. -/
def sToLower (s : String) : String :=
  String.mk (s.data.map Char.toLower)

/-- JavaScript `String.prototype.trim` (ASCII whitespace). -/
def sTrim (s : String) : String :=
  String.mk (((s.data.dropWhile wsChar).reverse.dropWhile wsChar).reverse)

/-- Case-insensitive substring test: `new RegExp(pat, 'i').test(s)` for a
regex `pat` that is a plain literal (no metacharacters). -/
def containsCI (s pat : String) : Bool :=
  ((s.data.map Char.toLower).tails).any
    (fun t => List.isPrefixOf (pat.data.map Char.toLower) t)

/-- Splitting on the literal separator `"__"`
(JavaScript `suffix.split('__')`), on character lists. -/
def splitOnDunderAux : List Char → List Char → List String
  | [], acc => [String.mk acc.reverse]
  | '_' :: '_' :: rest, acc => String.mk acc.reverse :: splitOnDunderAux rest []
  | c :: rest, acc => splitOnDunderAux rest (c :: acc)

/-- JavaScript `s.split('__')`. -/
def splitOnDunder (s : String) : List String :=
  splitOnDunderAux s.data []

/-- JavaScript regex `\w`: ASCII letters, digits and underscore. -/
def isWordChar (c : Char) : Bool :=
  c.isAlpha || c.isDigit || c = '_'

/-- The global replacement `replace(/[_-](\w)/g, (_, c) => c.toUpperCase())`
from `normalizeKey` in `src/config/vite.js`, scanning left to right and
restarting after each two-character match, exactly as the regex engine does. -/
def camelize : List Char → List Char
  | [] => []
  | [c] => [c]
  | c :: d :: rest =>
    if (c = '_' || c = '-') && isWordChar d then Char.toUpper d :: camelize rest
    else c :: camelize (d :: rest)

/-- `normalizeKey` from `src/config/vite.js`: lower-case the key, then
camel-case at `_`/`-` boundaries. -/
def normalizeKey (k : String) : String :=
  String.mk (camelize ((sToLower k).data))

/-- Decimal digits to a natural number. -/
def digitsToNat (ds : List Char) : Nat :=
  ds.foldl (fun a c => a * 10 + (c.toNat - '0'.toNat)) 0

/-- The exact rational value of a parsed decimal literal
`sgn · intDs.fracDs · 10^(esgn·eds)`, built with kernel-reducible `Rat`
primitives. -/
def ratOfParts (sgn : Int) (intDs fracDs : List Char) (esgn : Int)
    (eds : List Char) : Rat :=
  let m : Int := sgn * (Int.ofNat (digitsToNat (intDs ++ fracDs)))
  let e : Int := esgn * (Int.ofNat (digitsToNat eds)) - (Int.ofNat fracDs.length)
  if 0 ≤ e then ((m * Int.ofNat (Nat.pow 10 e.toNat) : Int) : Rat)
  else mkRat m (Nat.pow 10 (-e).toNat)

/-- JavaScript `parseInt(s)` restricted to base-10 input: skip leading
whitespace, optional sign, then greedily read decimal digits; `none` models
`NaN` (no digits).  The automatic hex mode of `parseInt` is outside the
modelled fragment. -/
def jsParseInt (s : String) : Option Int :=
  let cs := s.data.dropWhile wsChar
  let (sgn, cs1) : Int × List Char :=
    match cs with
    | '+' :: r => (1, r)
    | '-' :: r => (-1, r)
    | r => (1, r)
  let ds := cs1.takeWhile Char.isDigit
  if ds.isEmpty then none else some (sgn * (digitsToNat ds : Int))

/-! ## JavaScript values and the `JSON.parse` / `Number` models -/

/-- A JavaScript runtime value as far as the config machinery observes it.
Objects are ordered association lists (insertion order), matching how the
merge code enumerates and assigns keys. -/
inductive JVal where
  | undefined
  | null
  | bool (b : Bool)
  | num (q : Rat)
  | str (s : String)
  | arr (elems : List JVal)
  | obj (fields : List (String × JVal))

/-- `isObject` from `src/config/vite.js`:
`v && typeof v === 'object' && !Array.isArray(v)`.
`null` is falsy, arrays are excluded, so only plain objects qualify. -/
def isObject : JVal → Bool
  | .obj _ => true
  | _ => false

/-- JavaScript `typeof v === 'object'` (true for objects, arrays and `null`). -/
def typeofIsObject : JVal → Bool
  | .obj _ => true
  | .arr _ => true
  | .null => true
  | _ => false

/-- JavaScript truthiness of a `JVal`. -/
def truthy : JVal → Bool
  | .undefined => false
  | .null => false
  | .bool b => b
  | .num q => q ≠ 0
  | .str s => !s.data.isEmpty
  | .arr _ => true
  | .obj _ => true

/-- `a[k]` / `k in a` lookup on an object's field list (keys are unique in a
JavaScript object; the first binding wins). -/
def lookupKey (fs : List (String × JVal)) (k : String) : Option JVal :=
  match fs with
  | [] => none
  | (k2, v) :: rest => if k2 = k then some v else lookupKey rest k

/-- JavaScript property assignment `o[k] = v` on a field list: an existing
key is updated in place (keeping its position), a new key is appended. -/
def setKey (fs : List (String × JVal)) (k : String) (v : JVal) :
    List (String × JVal) :=
  match fs with
  | [] => [(k, v)]
  | (k2, v2) :: rest =>
    if k2 = k then (k, v) :: rest else (k2, v2) :: setKey rest k v

/-- `Number(s)` on the finite decimal fragment: optional surrounding
whitespace, optional sign, digits with optional fraction and exponent, exact
rational value; `none` models `NaN` (and the unmodelled empty-string case,
which `coerce` independently excludes via its `v.trim() !== ''` conjunct). -/
def numParse (s : String) : Option Rat :=
  let cs := ((s.data.dropWhile wsChar).reverse.dropWhile wsChar).reverse
  match cs with
  | [] => none
  | _ =>
    let (sgn, cs1) : Int × List Char :=
      match cs with
      | '+' :: r => (1, r)
      | '-' :: r => (-1, r)
      | r => (1, r)
    let intDs := cs1.takeWhile Char.isDigit
    let cs2 := cs1.drop intDs.length
    let (fracDs, cs3) : List Char × List Char :=
      match cs2 with
      | '.' :: r => (r.takeWhile Char.isDigit, r.drop (r.takeWhile Char.isDigit).length)
      | r => ([], r)
    if intDs.isEmpty && fracDs.isEmpty then none
    else
      match cs3 with
      | 'e' :: r | 'E' :: r =>
        let (esgn, r2) : Int × List Char :=
          match r with
          | '+' :: rr => (1, rr)
          | '-' :: rr => (-1, rr)
          | rr => (1, rr)
        let eds := r2.takeWhile Char.isDigit
        if eds.isEmpty then none
        else if (r2.drop eds.length).isEmpty then
          some (ratOfParts sgn intDs fracDs esgn eds)
        else none
      | [] => some (ratOfParts sgn intDs fracDs 1 [])
      | _ => none

/-- JSON whitespace. -/
def jsonWsChar (c : Char) : Bool :=
  c = ' ' || c = '\t' || c = '\n' || c = '\r'

/-- Skip JSON whitespace. -/
def skipWs (cs : List Char) : List Char :=
  cs.dropWhile jsonWsChar

/-- Scan a JSON string body after the opening quote, handling the single
character escapes; `\uXXXX` escapes are outside the modelled fragment. -/
def scanStringBody : List Char → List Char → Option (String × List Char)
  | [], _ => none
  | c :: rest, acc =>
    if c = '\x22' then some (String.mk acc.reverse, rest)
    else if c = '\x5c' then
      match rest with
      | [] => none
      | e :: rest2 =>
        if e = '\x22' then scanStringBody rest2 ('\x22' :: acc)
        else if e = '\x5c' then scanStringBody rest2 ('\x5c' :: acc)
        else if e = '/' then scanStringBody rest2 ('/' :: acc)
        else if e = 'b' then scanStringBody rest2 ('\x08' :: acc)
        else if e = 'f' then scanStringBody rest2 ('\x0c' :: acc)
        else if e = 'n' then scanStringBody rest2 ('\n' :: acc)
        else if e = 'r' then scanStringBody rest2 ('\r' :: acc)
        else if e = 't' then scanStringBody rest2 ('\t' :: acc)
        else none
    else if c.toNat < 32 then none
    else scanStringBody rest (c :: acc)

/-- A JSON number at the head of the input: optional `-`, at least one
integer digit, optional fraction, optional exponent; returns the rest. -/
def jsonNum (cs : List Char) : Option (Rat × List Char) :=
  let (sgn, cs1) : Int × List Char :=
    match cs with
    | '-' :: r => (-1, r)
    | r => (1, r)
  let intDs := cs1.takeWhile Char.isDigit
  if intDs.isEmpty then none
  else
    let cs2 := cs1.drop intDs.length
    let (fracDs, cs3) : List Char × List Char :=
      match cs2 with
      | '.' :: r =>
        (r.takeWhile Char.isDigit, r.drop (r.takeWhile Char.isDigit).length)
      | r => ([], r)
    if cs2 ≠ cs3 && fracDs.isEmpty then none
    else
      match cs3 with
      | 'e' :: r | 'E' :: r =>
        let (esgn, r2) : Int × List Char :=
          match r with
          | '+' :: rr => (1, rr)
          | '-' :: rr => (-1, rr)
          | rr => (1, rr)
        let eds := r2.takeWhile Char.isDigit
        if eds.isEmpty then none
        else some (ratOfParts sgn intDs fracDs esgn eds, r2.drop eds.length)
      | r => some (ratOfParts sgn intDs fracDs 1 [], r)

mutual

/-- Parse one JSON value (fuel-indexed recursive descent; the fuel chosen by
`jsonParse` always suffices for inputs it accepts). -/
def parseJVal : Nat → List Char → Option (JVal × List Char)
  | 0, _ => none
  | fuel + 1, cs =>
    match cs with
    | [] => none
    | c :: rest =>
      if c = '\x7b' then
        match skipWs rest with
        | d :: rest1 =>
          if d = '\x7d' then some (.obj [], rest1)
          else parseObjFields fuel (skipWs rest) []
        | [] => none
      else if c = '[' then
        match skipWs rest with
        | d :: rest1 =>
          if d = ']' then some (.arr [], rest1)
          else parseArrItems fuel (skipWs rest) []
        | [] => none
      else if c = '\x22' then
        match scanStringBody rest [] with
        | some (s, r) => some (.str s, r)
        | none => none
      else if List.isPrefixOf "true".data cs then some (.bool true, cs.drop 4)
      else if List.isPrefixOf "false".data cs then some (.bool false, cs.drop 5)
      else if List.isPrefixOf "null".data cs then some (.null, cs.drop 4)
      else
        match jsonNum cs with
        | some (q, r) => some (.num q, r)
        | none => none

/-- Parse the members of a JSON object after `{`; a duplicated key overwrites
the earlier binding in place, as in a JavaScript object. -/
def parseObjFields : Nat → List Char → List (String × JVal) →
    Option (JVal × List Char)
  | 0, _, _ => none
  | fuel + 1, cs, acc =>
    match cs with
    | [] => none
    | c :: rest =>
      if c = '\x22' then
        match scanStringBody rest [] with
        | some (k, r1) =>
          match skipWs r1 with
          | ':' :: r2 =>
            match parseJVal fuel (skipWs r2) with
            | some (v, r3) =>
              match skipWs r3 with
              | ',' :: r4 => parseObjFields fuel (skipWs r4) (setKey acc k v)
              | d :: r4 =>
                if d = '\x7d' then some (.obj (setKey acc k v), r4) else none
              | [] => none
            | none => none
          | _ => none
        | none => none
      else none

/-- Parse the items of a JSON array after `[`. -/
def parseArrItems : Nat → List Char → List JVal → Option (JVal × List Char)
  | 0, _, _ => none
  | fuel + 1, cs, acc =>
    match parseJVal fuel cs with
    | some (v, r1) =>
      match skipWs r1 with
      | ',' :: r2 => parseArrItems fuel (skipWs r2) (acc ++ [v])
      | ']' :: r2 => some (.arr (acc ++ [v]), r2)
      | _ => none
    | none => none

end

/-- `JSON.parse(s)`: `some v` on success, `none` models the thrown
`SyntaxError`. -/
def jsonParse (s : String) : Option JVal :=
  match parseJVal (2 * s.data.length + 4) (skipWs s.data) with
  | some (v, r) => if (skipWs r).isEmpty then some v else none
  | none => none

/-! ## `deepMerge`, `setDeep`, `coerce`, `mergeEnvIntoRuntimeGwack`
(`src/config/vite.js`) -/

mutual

/-- `deepMerge(a, b)` from `src/config/vite.js`: arrays concatenate, plain
objects merge key-by-key (recursively on keys present in both, `b`'s value on
keys only in `b`), anything else is replaced by `b`. -/
def deepMerge : JVal → JVal → JVal
  | .arr xs, .arr ys => .arr (xs ++ ys)
  | .obj fa, .obj fb => .obj (mergeFields fa fa fb)
  | _, b => b

/-- The loop `for (const k of Object.keys(b)) out[k] = k in a ? deepMerge(a[k], b[k]) : b[k]`
with `out` initialized to `{...a}`; `a` stays the original left object. -/
def mergeFields (a out : List (String × JVal)) :
    List (String × JVal) → List (String × JVal)
  | [] => out
  | (k, bv) :: rest =>
    mergeFields a
      (setKey out k (match lookupKey a k with
        | some av => deepMerge av bv
        | none => bv)) rest

end

/-- The walk of `setDeep(obj, pathArr, val)` over an object's fields: at an
intermediate segment a non-object value is replaced by a fresh `{}` before
descending; the final segment is a plain assignment.  (The empty path, which
`mergeEnvIntoRuntimeGwack` never produces thanks to its length guard, would
assign to the literal property `"undefined"` via `pathArr[pathArr.length-1]`.) -/
def setDeepFields (fs : List (String × JVal)) :
    List String → JVal → List (String × JVal)
  | [], v => setKey fs "undefined" v
  | [k], v => setKey fs k v
  | k :: k2 :: rest, v =>
    let sub : List (String × JVal) :=
      match lookupKey fs k with
      | some (.obj g) => g
      | _ => []
    setKey fs k (.obj (setDeepFields sub (k2 :: rest) v))

/-- `setDeep` on a runtime-config value.  The root is an object in every
reachable state; on a non-object root the walk's first property assignment
would throw a `TypeError` in strict mode, modelled by `none`. -/
def setDeep (r : JVal) (parts : List String) (v : JVal) : Option JVal :=
  match r with
  | .obj fs => some (.obj (setDeepFields fs parts v))
  | _ => none

/-- `coerce(v)` from `src/config/vite.js`: boolean literals, `null`, numeric
strings (via the `Number` model), then an attempted `JSON.parse` kept only
when it yields `typeof 'object'`, else the raw string. -/
def coerce (v : String) : JVal :=
  if v = "true" then .bool true
  else if v = "false" then .bool false
  else if v = "null" then .null
  else if (numParse v).isSome && !(sTrim v).data.isEmpty then
    .num ((numParse v).getD 0)
  else
    match jsonParse v with
    | some p => if typeofIsObject p then p else .str v
    | none => .str v

/-- `process.env` lookup (keys are unique; the first binding wins). -/
def envLookup (env : List (String × String)) (k : String) : Option String :=
  match env with
  | [] => none
  | (k2, v) :: rest => if k2 = k then some v else envLookup rest k

/-- One iteration of the `for (const [key, value] of Object.entries(process.env))`
loop in `mergeEnvIntoRuntimeGwack`: non-`GWACK_` keys and `GWACK_JSON` are
skipped; otherwise the suffix after `GWACK_` is split into path segments only
when it starts with `_` (the `GWACK__nested__keys` form), each segment is
normalized, and the coerced value is deep-set at that path. -/
def applyEnvEntry (r : JVal) (kv : String × String) : Option JVal :=
  if !(sStartsWith kv.1 "GWACK_") then some r
  else if kv.1 = "GWACK_JSON" then some r
  else
    let suffix := sDrop kv.1 6
    let parts :=
      if sStartsWith suffix "_" then
        (splitOnDunder suffix).filter (fun p => !p.data.isEmpty)
      else [suffix]
    let normalizedParts := parts.map normalizeKey
    if normalizedParts.isEmpty then some r
    else setDeep r normalizedParts (coerce kv.2)

/-- `mergeEnvIntoRuntimeGwack(base)` from `src/config/vite.js`, with the
environment passed explicitly: first the `GWACK_JSON` blob is parsed and
deep-merged (a parse failure is swallowed by the empty `catch`), then every
other `GWACK_`-prefixed variable is deep-set.  The result is the value of the
mutated `result` binding; `none` models the strict-mode `TypeError` reachable
only when a non-object JSON blob replaces the root. -/
def mergeEnvIntoRuntimeGwack (env : List (String × String))
    (base : List (String × JVal)) : Option JVal :=
  let result0 : JVal := .obj base
  let result1 : JVal :=
    match envLookup env "GWACK_JSON" with
    | some s =>
      if !s.data.isEmpty then
        match jsonParse s with
        | some parsed => deepMerge result0 parsed
        | none => result0
      else result0
    | none => result0
  env.foldlM applyEnvEntry result1

/-! ## The route discoverer (`src/plugins/gwack.js`) -/

mutual

/-- A directory entry as `readdir`/`stat` observe it: a plain file or a
subdirectory with its own listing. -/
inductive FsEntry where
  | file (name : String)
  | dir (name : String) (children : FsEntries)

/-- A directory listing, in `readdir` order. -/
inductive FsEntries where
  | nil
  | cons (e : FsEntry) (es : FsEntries)

end

/-- The listing as a Lean list. -/
def FsEntries.toList : FsEntries → List FsEntry
  | .nil => []
  | .cons e es => e :: es.toList

/-- The name of an entry. -/
def entryName : FsEntry → String
  | .file n => n
  | .dir n _ => n

/-- `join(prefix, entry)` (POSIX `path.join` on plain names). -/
def pjoin (pre n : String) : String :=
  if pre = "" then n else pre ++ "/" ++ n

/-- `basename(filename, '.vue')`: strips the extension when it is a proper
suffix (Node keeps the name unchanged when it equals the extension). -/
def basenameVue (fn : String) : String :=
  if fn ≠ ".vue" && sEndsWith fn ".vue" then sDropRight fn 4 else fn

/-- `generateRoutePath(prefix, filename)` from `src/plugins/gwack.js`:
`index` collapses to the parent path, `[param]` becomes `:param`, anything
else appends the stem. -/
def generateRoutePath (pre fn : String) : String :=
  let nm := basenameVue fn
  if nm = "index" then (if pre = "" then "/" else "/" ++ pre)
  else if sStartsWith nm "[" && sEndsWith nm "]" then
    (if pre = "" then "/:" ++ sDropRight (sDrop nm 1) 1
     else "/" ++ pre ++ "/:" ++ sDropRight (sDrop nm 1) 1)
  else (if pre = "" then "/" ++ nm else "/" ++ pre ++ "/" ++ nm)

/-- `routePath.replace(/\//g, '.').replace(/^\./, '') || 'index'`. -/
def routeNameOf (p : String) : String :=
  let d := String.mk (p.data.map (fun c => if c = '/' then '.' else c))
  let d2 := if sStartsWith d "." then sDrop d 1 else d
  if d2 = "" then "index" else d2

/-- One discovered route record as pushed by `generateRoutes`. -/
structure Route where
  path : String
  name : String
  importPath : String

/-- The record pushed for a `.vue` file `fn` under directory prefix `pre`:
`relative(pagesDir, fullPath)` is `join(pre, fn)` (no backslashes on POSIX). -/
def mkRoute (pre fn : String) : Route :=
  let p := generateRoutePath pre fn
  { path := p, name := routeNameOf p, importPath := "pages/" ++ pjoin pre fn }

mutual

/-- The body of `scanDirectory`'s loop for one entry: subdirectories recurse
with an extended prefix, `.vue` files push one route, other files are
ignored. -/
def entryRoutes (pre : String) : FsEntry → List Route
  | .file n => if sEndsWith n ".vue" then [mkRoute pre n] else []
  | .dir n cs => scanDirectory (pjoin pre n) cs

/-- `scanDirectory(dir, prefix)` from `generateRoutes`: entries are processed
in listing order, pushing into one shared array (so a subdirectory's routes
appear between its siblings'). -/
def scanDirectory (pre : String) : FsEntries → List Route
  | .nil => []
  | .cons e es => entryRoutes pre e ++ scanDirectory pre es

end

/-- `scanDirectory` expressed over a Lean list of entries. -/
def scanList (pre : String) (l : List FsEntry) : List Route :=
  match l with
  | [] => []
  | e :: es => entryRoutes pre e ++ scanList pre es

/-- `generateRoutes(pagesDir)`: `none` models a pages directory that does not
exist (`existsSync` false), in which case the empty route list is returned
without scanning. -/
def generateRoutes : Option FsEntries → List Route
  | none => []
  | some l => scanDirectory "" l

/-- A name a real `readdir` can return: non-empty and without `/`. -/
def validName (n : String) : Bool :=
  !n.data.isEmpty && n.data.all (fun c => c ≠ '/')

mutual

/-- Well-formedness of an entry: a valid name, recursively. -/
def wfEntry : FsEntry → Bool
  | .file n => validName n
  | .dir n cs => validName n && wfDir cs

/-- Well-formedness of a listing: entries well-formed and sibling names
pairwise distinct, as a real directory listing guarantees. -/
def wfDir : FsEntries → Bool
  | .nil => true
  | .cons e es =>
    wfEntry e && (es.toList.map entryName).all (fun m => m ≠ entryName e) && wfDir es

end

/-- Well-formedness of a pages directory (vacuous when absent). -/
def wfPages : Option FsEntries → Bool
  | none => true
  | some l => wfDir l

/-! ## The PHP stderr classifier (`src/servers/php.js`) -/

/-- `isPhpWarning(line)`: `/PHP (Warning|Notice|Deprecated)/i.test(line)`. -/
def isPhpWarning (line : String) : Bool :=
  containsCI line "PHP Warning" || containsCI line "PHP Notice" ||
    containsCI line "PHP Deprecated"

/-- `isPhpError(line)`:
`/PHP (Fatal error|Parse error|Recoverable fatal error)|Uncaught (Exception|Error)|Stack trace:/i.test(line)`. -/
def isPhpError (line : String) : Bool :=
  containsCI line "PHP Fatal error" || containsCI line "PHP Parse error" ||
    containsCI line "PHP Recoverable fatal error" ||
    containsCI line "Uncaught Exception" || containsCI line "Uncaught Error" ||
    containsCI line "Stack trace:"

/-- `^\[[^\]]+\]` — a bracketed timestamp: `[`, one or more non-`]`
characters, `]`.  Returns the rest of the line. -/
def matchBracketTs : List Char → Option (List Char)
  | '[' :: rest =>
    let inner := rest.takeWhile (fun c => c ≠ ']')
    if inner.isEmpty then none
    else
      match rest.drop inner.length with
      | ']' :: rest2 => some rest2
      | _ => none
  | _ => none

/-- `\s+` — at least one whitespace character, consumed greedily (every
continuation in these patterns starts with a non-whitespace character, so
greediness is exact).  Returns the rest. -/
def matchWs1 : List Char → Option (List Char)
  | c :: rest => if wsChar c then some (rest.dropWhile wsChar) else none
  | [] => none

/-- Whether a whitespace-delimited token matches `\S+:\d+` with the digit run
immediately followed by whitespace (the backtracking regex succeeds exactly
when the token's maximal digit suffix is non-empty, preceded by `:`, preceded
by at least one more character). -/
def hostPortToken (t : List Char) : Bool :=
  let r := t.reverse
  let ds := r.takeWhile Char.isDigit
  !ds.isEmpty &&
    (match r.drop ds.length with
     | ':' :: rest => !rest.isEmpty
     | _ => false)

/-- `\S+:\d+` consuming a whole token followed by `\s+`. -/
def matchHostPortWs (cs : List Char) : Option (List Char) :=
  let t := cs.takeWhile (fun c => !wsChar c)
  if hostPortToken t then matchWs1 (cs.drop t.length) else none

/-- `\[\d{3}\]:` — a bracketed three-digit status followed by a colon. -/
def matchStatus : List Char → Option (List Char)
  | '[' :: d1 :: d2 :: d3 :: ']' :: ':' :: rest =>
    if d1.isDigit && d2.isDigit && d3.isDigit then some rest else none
  | _ => none

/-- The lower-cased HTTP method alternatives of the request-log regexes. -/
def lcMethods : List (List Char) :=
  ["get".data, "post".data, "put".data, "patch".data, "delete".data,
   "head".data, "options".data]

/-- `(GET|POST|PUT|PATCH|DELETE|HEAD|OPTIONS)\s+` case-insensitively, at the
head of the input. -/
def matchMethodWs (cs : List Char) : Bool :=
  lcMethods.any (fun md =>
    List.isPrefixOf md (cs.map Char.toLower) &&
      (match cs.drop md.length with
       | c :: _ => wsChar c
       | [] => false))

/-- `^\[[^\]]+\]\s+\S+:\d+\s+\[\d{3}\]:\s+(METHOD)\s+`. -/
def logWithTimeAndStatus (cs : List Char) : Bool :=
  match matchBracketTs cs with
  | some r1 =>
    match matchWs1 r1 with
    | some r2 =>
      match matchHostPortWs r2 with
      | some r3 =>
        match matchStatus r3 with
        | some r4 =>
          match matchWs1 r4 with
          | some r5 => matchMethodWs r5
          | none => false
        | none => false
      | none => false
    | none => false
  | none => false

/-- `^\[[^\]]+\]\s+\S+:\d+\s+(METHOD)\s+`. -/
def logWithTime (cs : List Char) : Bool :=
  match matchBracketTs cs with
  | some r1 =>
    match matchWs1 r1 with
    | some r2 =>
      match matchHostPortWs r2 with
      | some r3 => matchMethodWs r3
      | none => false
    | none => false
  | none => false

/-- `^\S+:\d+\s+\[\d{3}\]:\s+(METHOD)\s+`. -/
def logNoTime (cs : List Char) : Bool :=
  match matchHostPortWs cs with
  | some r1 =>
    match matchStatus r1 with
    | some r2 =>
      match matchWs1 r2 with
      | some r3 => matchMethodWs r3
      | none => false
    | none => false
  | none => false

/-- `isPhpRequestLog(line)`: the startup banner is excluded, then any of the
three access-log shapes matches. -/
def isPhpRequestLog (line : String) : Bool :=
  if containsCI line "Development Server" then false
  else
    logWithTimeAndStatus line.data || logWithTime line.data || logNoTime line.data

/-- The four output buckets of the stderr handler in `startPhpServer`. -/
inductive Bucket where
  | warn
  | error
  | request
  | info
deriving DecidableEq

/-- The per-line dispatch of the stderr handler in `startPhpServer`: warning
first, then error, then request log, anything else is informational. -/
def classifyPhpLine (line : String) : Bucket :=
  if isPhpWarning line then .warn
  else if isPhpError line then .error
  else if isPhpRequestLog line then .request
  else .info

/-! ## The app-shell loader (`generateAppComponent`), current and legacy -/

/-- The file system as the shim lookups observe it: existence plus a read
that can fail (`readFileSync` throwing is modelled by `.error msg`). -/
structure Fs where
  pathExists : String → Bool
  readFile : String → Except String String

/-- The `node_modules` shim location checked first by the current
`generateAppComponent` (relative to `process.cwd()`). -/
def nmAppShimPath : String := "node_modules/@gwack/cli/shims/app-component.tmpl"

/-- The package-local shim location checked second (resolved from the plugin
module's own directory, abstracted to a fixed distinct path). -/
def localAppShimPath : String := "cli-root/shims/app-component.tmpl"

/-- The message of the error thrown when neither shim location exists, after
the outer catch re-wraps it. -/
def appShimNotFoundMsg : String :=
  "Failed to generate app component: App component shim not found. Checked: "
    ++ nmAppShimPath ++ ", " ++ localAppShimPath

/-- `generateAppComponent()` from `src/plugins/gwack.js` (current variant):
read the first existing shim; when neither location exists, an error is
thrown, caught and re-thrown wrapped — it always propagates to the caller. -/
def generateAppComponent (fs : Fs) : Except String String :=
  if fs.pathExists nmAppShimPath then
    match fs.readFile nmAppShimPath with
    | .ok s => .ok s
    | .error m => .error ("Failed to generate app component: " ++ m)
  else if fs.pathExists localAppShimPath then
    match fs.readFile localAppShimPath with
    | .ok s => .ok s
    | .error m => .error ("Failed to generate app component: " ++ m)
  else .error appShimNotFoundMsg

namespace Legacy

/-- The `node_modules` shim location of the legacy plugin variant. -/
def nmAppShimPath : String := "node_modules/@gwack/cli/src/shims/app-component.js"

/-- The package-local shim location of the legacy plugin variant. -/
def localAppShimPath : String := "cli-src/shims/app-component.js"

/-- `generateAppComponent()` from the legacy plugin variant
(`src/unnamed/part_001`): when neither shim location exists the function
falls off the end of its `try` block and returns `undefined` (modelled as
`none`); a read failure is caught, a warning is logged, and `''` is
returned.  No error ever propagates. -/
def generateAppComponent (fs : Fs) : Option String :=
  if fs.pathExists nmAppShimPath then
    match fs.readFile nmAppShimPath with
    | .ok s => some s
    | .error _ => some ""
  else if fs.pathExists localAppShimPath then
    match fs.readFile localAppShimPath with
    | .ok s => some s
    | .error _ => some ""
  else none

end Legacy

/-- A file system on which every lookup fails. -/
def emptyFs : Fs :=
  { pathExists := fun _ => false, readFile := fun _ => .error "ENOENT" }

/-! ## `devCommand` option resolution (`src/cli/build.js`, config-loading
variant) -/

/-- JavaScript `a || b`. -/
def jsOr (a b : JVal) : JVal :=
  if truthy a then a else b

/-- `parseInt(flag)` lifted to a `JVal`; an absent flag gives
`parseInt(undefined) = NaN`.  `NaN` is modelled by `.undefined`: both are falsy,
and a falsy value is never selected by the surrounding `||` chains, so the
distinction is unobservable here. -/
def parseIntFlag : Option String → JVal
  | some f =>
    match jsParseInt f with
    | some n => .num (n : Rat)
    | none => .undefined
  | none => .undefined

/-- `const resolvedPhpPort = phpCfg.port || parseInt(phpPort) || 8080` —
`cfgPort` is `serve.php.port` from the loaded config (`.undefined` when the
config omits it), `flag` the `--php-port` CLI option. -/
def resolvedPhpPort (cfgPort : JVal) (flag : Option String) : JVal :=
  jsOr cfgPort (jsOr (parseIntFlag flag) (.num 8080))

/-- `const resolvedHost = feCfg.host || host || 'localhost'`. -/
def resolvedHost (cfgHost : JVal) (flag : Option String) : JVal :=
  jsOr cfgHost (jsOr (match flag with | some s => .str s | none => .undefined)
    (.str "localhost"))

/-- `const resolvedPort = feCfg.port || parseInt(port) || 3000`. -/
def resolvedPort (cfgPort : JVal) (flag : Option String) : JVal :=
  jsOr cfgPort (jsOr (parseIntFlag flag) (.num 3000))

/-! ## Concrete trees used as inputs -/

/-- The `users/` listing of the standard example tree. -/
def usersC : FsEntries :=
  .cons (.file "[id].vue") (.cons (.file "index.vue") .nil)

/-- The standard example tree:
`index.vue`, `about.vue`, `users/[id].vue`, `users/index.vue`. -/
def rootC : FsEntries :=
  .cons (.file "index.vue")
    (.cons (.file "about.vue") (.cons (.dir "users" usersC) .nil))

/-- A well-formed tree containing both `about.vue` and `about/index.vue`. -/
def collideTree : FsEntries :=
  .cons (.file "about.vue")
    (.cons (.dir "about" (.cons (.file "index.vue") .nil)) .nil)

/-- Ownership of an import path by the entry named `n` directly under the
directory prefix `pre`: the path extends `pages/<pre>/<n>` either exactly (a
file) or across a further `/` (a descendant of a subdirectory).  Proof
device for the sibling-disjointness argument. -/
def ownedBy (pre n s : String) : Prop :=
  ∃ t, s.data = "pages/".data ++ (pjoin pre n).data ++ t ∧
    (t = [] ∨ ∃ r, t = '/' :: r)

/-- Induction device (C3): every route produced for an entry under `pre` has
an import path owned by that entry's name. -/
def OwnedEntry (e : FsEntry) : Prop :=
  ∀ pre, wfEntry e = true →
    ∀ r ∈ entryRoutes pre e, ownedBy pre (entryName e) r.importPath

/-- Induction device (C3): every route produced for a listing under `pre` is
owned by the name of some entry of the listing. -/
def OwnedDir (l : FsEntries) : Prop :=
  ∀ pre, wfDir l = true →
    ∀ r ∈ scanDirectory pre l, ∃ e ∈ l.toList, wfEntry e = true ∧
      ownedBy pre (entryName e) r.importPath

/-- Induction device (C3): the import paths of an entry's routes are
pairwise distinct. -/
def NodupEntry (e : FsEntry) : Prop :=
  ∀ pre, wfEntry e = true → ((entryRoutes pre e).map Route.importPath).Nodup

/-- Induction device (C3): the import paths of a listing's routes are
pairwise distinct. -/
def NodupDir (l : FsEntries) : Prop :=
  ∀ pre, wfDir l = true → ((scanDirectory pre l).map Route.importPath).Nodup

/-! ## Helper lemmas -/

theorem strDataAppend (a b : String) : (a ++ b).data = a.data ++ b.data := rfl

theorem strExt (a b : String) (h : a.data = b.data) : a = b :=
  congrArg String.mk h

mutual

theorem fsIndE (P : FsEntry → Prop) (Q : FsEntries → Prop)
    (hf : ∀ n, P (.file n)) (hd : ∀ n cs, Q cs → P (.dir n cs))
    (h0 : Q .nil) (h1 : ∀ e es, P e → Q es → Q (.cons e es)) :
    ∀ e : FsEntry, P e
  | .file n => hf n
  | .dir n cs => hd n cs (fsIndL P Q hf hd h0 h1 cs)

theorem fsIndL (P : FsEntry → Prop) (Q : FsEntries → Prop)
    (hf : ∀ n, P (.file n)) (hd : ∀ n cs, Q cs → P (.dir n cs))
    (h0 : Q .nil) (h1 : ∀ e es, P e → Q es → Q (.cons e es)) :
    ∀ l : FsEntries, Q l
  | .nil => h0
  | .cons e es => h1 e es (fsIndE P Q hf hd h0 h1 e) (fsIndL P Q hf hd h0 h1 es)

end

theorem scan_eq_scanList (l : FsEntries) :
    ∀ pre, scanDirectory pre l = scanList pre l.toList := by
  refine fsIndL (fun _ => True) (fun l => ∀ pre, scanDirectory pre l = scanList pre l.toList)
    (fun _ => trivial) (fun _ _ _ => trivial) ?_ ?_ l
  · intro pre; rfl
  · intro e es _ ih pre
    show entryRoutes pre e ++ scanDirectory pre es = _
    rw [ih]
    rfl

theorem scanList_perm (pre : String) {a b : List FsEntry} (h : a.Perm b) :
    (scanList pre a).Perm (scanList pre b) := by
  induction h with
  | nil => exact List.Perm.refl _
  | cons x _ ih => exact ih.append_left (entryRoutes pre x)
  | swap x y l =>
    show (entryRoutes pre y ++ (entryRoutes pre x ++ scanList pre l)).Perm
      (entryRoutes pre x ++ (entryRoutes pre y ++ scanList pre l))
    rw [← List.append_assoc, ← List.append_assoc]
    exact (List.perm_append_comm).append_right (scanList pre l)
  | trans _ _ ih1 ih2 => exact ih1.trans ih2

/-! ## Claim theorems -/

/-- C1: for every pages tree containing exactly `index.vue`, `about.vue`,
`users/[id].vue` and `users/index.vue` (sibling listings in any order), the
route discoverer yields exactly the routes `/`→`index`, `/about`→`about`,
`/users/:id`→`users.:id`, `/users`→`users`, in some order. -/
theorem c1_route_table (users root : FsEntries)
    (hu : users.toList.Perm [.file "[id].vue", .file "index.vue"])
    (hr : root.toList.Perm
      [.file "index.vue", .file "about.vue", .dir "users" users]) :
    (generateRoutes (some root)).Perm
      [{ path := "/", name := "index", importPath := "pages/index.vue" },
       { path := "/about", name := "about", importPath := "pages/about.vue" },
       { path := "/users/:id", name := "users.:id", importPath := "pages/users/[id].vue" },
       { path := "/users", name := "users", importPath := "pages/users/index.vue" }] := by
  have h1 : generateRoutes (some root) = scanList "" root.toList :=
    scan_eq_scanList root ""
  have h2 := scanList_perm "" hr
  have h3 : scanList "" [.file "index.vue", .file "about.vue", .dir "users" users] =
      { path := "/", name := "index", importPath := "pages/index.vue" }
        :: { path := "/about", name := "about", importPath := "pages/about.vue" }
        :: (scanDirectory "users" users ++ []) := rfl
  have h4 : scanDirectory "users" users = scanList "users" users.toList :=
    scan_eq_scanList users "users"
  have h5 := scanList_perm "users" hu
  have h6 : scanList "users" [.file "[id].vue", .file "index.vue"] =
      [{ path := "/users/:id", name := "users.:id", importPath := "pages/users/[id].vue" },
       { path := "/users", name := "users", importPath := "pages/users/index.vue" }] := rfl
  rw [h1]
  refine h2.trans ?_
  rw [h3, List.append_nil, h4]
  exact ((h6 ▸ h5).cons _).cons _

/-- C1 witness: the canonical listing order instantiates the permutation
hypotheses. -/
theorem c1_route_table_witness :
    usersC.toList.Perm [.file "[id].vue", .file "index.vue"] ∧
    rootC.toList.Perm [.file "index.vue", .file "about.vue", .dir "users" usersC] ∧
    (generateRoutes (some rootC)).Perm
      [{ path := "/", name := "index", importPath := "pages/index.vue" },
       { path := "/about", name := "about", importPath := "pages/about.vue" },
       { path := "/users/:id", name := "users.:id", importPath := "pages/users/[id].vue" },
       { path := "/users", name := "users", importPath := "pages/users/index.vue" }] :=
  ⟨List.Perm.refl _, List.Perm.refl _,
    c1_route_table usersC rootC (List.Perm.refl _) (List.Perm.refl _)⟩

/-- C2 counterexample: `GWACK_SERVE__PHP__PORT=9001` does NOT produce the
nested object — the suffix `SERVE__PHP__PORT` does not start with `_`, so it
is kept as a single key and normalized to the flat `serve_php_port`. -/
theorem c2_counterexample :
    mergeEnvIntoRuntimeGwack [("GWACK_SERVE__PHP__PORT", "9001")] [] =
      some (.obj [("serve_php_port", .num 9001)]) ∧
    mergeEnvIntoRuntimeGwack [("GWACK_SERVE__PHP__PORT", "9001")] [] ≠
      some (.obj [("serve", .obj [("php", .obj [("port", .num 9001)])])]) := by
  refine ⟨rfl, fun h => ?_⟩
  rw [show mergeEnvIntoRuntimeGwack [("GWACK_SERVE__PHP__PORT", "9001")] [] =
      some (.obj [("serve_php_port", .num 9001)]) from rfl] at h
  simp at h

/-- C2 (amended): `GWACK_SERVE__PHP__PORT=9001` produces the flat
`{ serve_php_port: 9001 }` (numeric coercion applied); the nested form
requires the double-underscore spelling `GWACK__SERVE__PHP__PORT`, which
yields `{ Serve: { php: { port: 9001 } } }` (the leading segment `_SERVE`
normalizes to `Serve`). -/
theorem c2_amended :
    mergeEnvIntoRuntimeGwack [("GWACK_SERVE__PHP__PORT", "9001")] [] =
      some (.obj [("serve_php_port", .num 9001)]) ∧
    mergeEnvIntoRuntimeGwack [("GWACK__SERVE__PHP__PORT", "9001")] [] =
      some (.obj [("Serve", .obj [("php", .obj [("port", .num 9001)])])]) :=
  ⟨rfl, rfl⟩

/-- C3 counterexample: a well-formed tree containing both `about.vue` and
`about/index.vue` yields two routes with the same path `/about`. -/
theorem c3_counterexample :
    wfDir collideTree = true ∧
    (generateRoutes (some collideTree)).map Route.path = ["/about", "/about"] ∧
    ¬ ((generateRoutes (some collideTree)).map Route.path).Nodup :=
  ⟨rfl, rfl, by decide⟩

/-- C5: the classifier sends the canonical access-log line to the
request-log bucket and a fatal-error line to the error bucket. -/
theorem c5_classifier_examples :
    classifyPhpLine "[Mon Jan 1 00:00:00 2024] 127.0.0.1:1234 [200]: GET /" =
      Bucket.request ∧
    classifyPhpLine "PHP Fatal error: something" = Bucket.error :=
  ⟨rfl, rfl⟩

/-- C6: an absent pages directory and an existing-but-empty pages directory
both give the empty route list (the total function returns, no error). -/
theorem c6_empty_or_absent :
    generateRoutes none = [] ∧ generateRoutes (some .nil) = [] :=
  ⟨rfl, rfl⟩

/-- C7 counterexample: in the legacy plugin variant (`src/unnamed/part_001`)
the app-shell loader silently returns `undefined` when no shim location
exists — no error propagates, refuting the claim for that variant. -/
theorem c7_counterexample : Legacy.generateAppComponent emptyFs = none := rfl

/-- C7 (amended): when the app-shell template is at none of its lookup
locations, the current `generateAppComponent` throws an error that
propagates to the caller (never an empty or undefined module source), while
the legacy variant instead returns `undefined`. -/
theorem c7_amended (fs : Fs)
    (h1 : fs.pathExists nmAppShimPath = false)
    (h2 : fs.pathExists localAppShimPath = false)
    (h3 : fs.pathExists Legacy.nmAppShimPath = false)
    (h4 : fs.pathExists Legacy.localAppShimPath = false) :
    generateAppComponent fs = .error appShimNotFoundMsg ∧
    Legacy.generateAppComponent fs = none := by
  constructor
  · simp [generateAppComponent, h1, h2]
  · simp [Legacy.generateAppComponent, h3, h4]

/-- C7 witness: the file system on which every lookup fails. -/
theorem c7_amended_witness :
    emptyFs.pathExists nmAppShimPath = false ∧
    emptyFs.pathExists localAppShimPath = false ∧
    emptyFs.pathExists Legacy.nmAppShimPath = false ∧
    emptyFs.pathExists Legacy.localAppShimPath = false ∧
    (generateAppComponent emptyFs = .error appShimNotFoundMsg ∧
      Legacy.generateAppComponent emptyFs = none) :=
  ⟨rfl, rfl, rfl, rfl, c7_amended emptyFs rfl rfl rfl rfl⟩

/-- C9: in the config-loading `devCommand`, a truthy config value for
`serve.php.port` / `serve.frontend.host` / `serve.frontend.port` wins over
any CLI flag; with the config field absent the (parseable, non-zero resp.
non-empty) flag is used; with both absent the defaults 8080 / `localhost` /
3000 apply. -/
theorem c9_dev_resolution :
    (∀ (v : JVal) (f : Option String), truthy v = true → resolvedPhpPort v f = v) ∧
    (∀ (v : JVal) (f : Option String), truthy v = true → resolvedHost v f = v) ∧
    (∀ (v : JVal) (f : Option String), truthy v = true → resolvedPort v f = v) ∧
    (∀ (f : String) (n : Int), jsParseInt f = some n → (n : Rat) ≠ 0 →
      resolvedPhpPort .undefined (some f) = .num (n : Rat)) ∧
    (∀ s : String, s.data ≠ [] → resolvedHost .undefined (some s) = .str s) ∧
    (∀ (f : String) (n : Int), jsParseInt f = some n → (n : Rat) ≠ 0 →
      resolvedPort .undefined (some f) = .num (n : Rat)) ∧
    resolvedPhpPort .undefined none = .num 8080 ∧
    resolvedHost .undefined none = .str "localhost" ∧
    resolvedPort .undefined none = .num 3000 := by
  refine ⟨?_, ?_, ?_, ?_, ?_, ?_, rfl, rfl, rfl⟩
  · intro v f h; simp [resolvedPhpPort, jsOr, h]
  · intro v f h; simp [resolvedHost, jsOr, h]
  · intro v f h; simp [resolvedPort, jsOr, h]
  · intro f n h1 h2
    simp [resolvedPhpPort, jsOr, parseIntFlag, h1, truthy, h2]
  · intro s h
    cases h2 : s.data with
    | nil => exact absurd h2 h
    | cons a as => simp [resolvedHost, jsOr, truthy, h2]
  · intro f n h1 h2
    simp [resolvedPort, jsOr, parseIntFlag, h1, truthy, h2]

/-- C9 witness: concrete config/flag combinations for each tier. -/
theorem c9_dev_resolution_witness :
    truthy (.num 9005) = true ∧
    jsParseInt "8081" = some 8081 ∧ ((8081 : Int) : Rat) ≠ 0 ∧
    ("dev.local" : String).data ≠ [] ∧
    resolvedPhpPort (.num 9005) (some "1234") = .num 9005 ∧
    resolvedHost .undefined (some "dev.local") = .str "dev.local" ∧
    resolvedPort .undefined (some "8081") = .num 8081 ∧
    resolvedPhpPort .undefined none = .num 8080 := by
  obtain ⟨p1, _, _, _, p5, p6, p7, _, _⟩ := c9_dev_resolution
  exact ⟨by decide, rfl, by decide, by decide,
    p1 (.num 9005) (some "1234") (by decide),
    p5 "dev.local" (by decide),
    p6 "8081" 8081 rfl (by decide), p7⟩

/-- C10: the stderr checks run in the fixed order warning, error, request
log, informational fallback — a line matching both the warning and the error
pattern lands in the warning bucket — and every line gets exactly one
bucket. -/
theorem c10_classifier_precedence (line : String) :
    (isPhpWarning line = true → isPhpError line = true →
      classifyPhpLine line = Bucket.warn) ∧
    (∃! b, classifyPhpLine line = b) := by
  constructor
  · intro hw _; simp [classifyPhpLine, hw]
  · exact ⟨classifyPhpLine line, rfl, fun b hb => hb.symm⟩

/-- C10 witness: a line matching both the warning and the error markers. -/
theorem c10_classifier_precedence_witness :
    isPhpWarning "PHP Warning: Uncaught Error: boom" = true ∧
    isPhpError "PHP Warning: Uncaught Error: boom" = true ∧
    classifyPhpLine "PHP Warning: Uncaught Error: boom" = Bucket.warn :=
  ⟨by decide, by decide,
    (c10_classifier_precedence "PHP Warning: Uncaught Error: boom").1
      (by decide) (by decide)⟩

/-! ### Association-list lemmas for `deepMerge` (C4) -/

theorem lookup_setKey : ∀ (out : List (String × JVal)) (k : String) (v : JVal)
    (k2 : String),
    lookupKey (setKey out k v) k2 = if k = k2 then some v else lookupKey out k2
  | [], k, v, k2 => by simp [setKey, lookupKey]
  | (a, w) :: rest, k, v, k2 => by
    by_cases hak : a = k
    · subst hak
      by_cases hk2 : a = k2
      · subst hk2; simp [setKey, lookupKey]
      · simp [setKey, lookupKey, hk2]
    · by_cases hk2 : a = k2
      · subst hk2
        have hka : ¬ (k = a) := fun h => hak (Eq.symm h)
        simp [setKey, lookupKey, hak, hka]
      · simp [setKey, lookupKey, hak, hk2, lookup_setKey rest k v k2]

theorem lookup_none_of_notin : ∀ (fs : List (String × JVal)) (k : String),
    k ∉ fs.map Prod.fst → lookupKey fs k = none
  | [], _, _ => rfl
  | (a, w) :: rest, k, h => by
    have h1 : ¬ (a = k) := fun e => h (by simp [e])
    have h2 : k ∉ rest.map Prod.fst := fun m => h (by simp [m])
    simp [lookupKey, h1, lookup_none_of_notin rest k h2]

theorem mergeFields_lookup : ∀ (fb a out : List (String × JVal)) (k : String),
    (fb.map Prod.fst).Nodup →
    lookupKey (mergeFields a out fb) k =
      match lookupKey fb k with
      | some bv => some (match lookupKey a k with
          | some av => deepMerge av bv
          | none => bv)
      | none => lookupKey out k
  | [], a, out, k, _ => by simp [mergeFields, lookupKey]
  | (k0, bv0) :: rest, a, out, k, hnd => by
    have hpair : k0 ∉ rest.map Prod.fst ∧ (rest.map Prod.fst).Nodup :=
      List.nodup_cons.mp (by exact hnd)
    have hnd2 : (rest.map Prod.fst).Nodup := hpair.2
    have hk0 : k0 ∉ rest.map Prod.fst := hpair.1
    have heq : mergeFields a out ((k0, bv0) :: rest) =
        mergeFields a (setKey out k0 (match lookupKey a k0 with
          | some av => deepMerge av bv0
          | none => bv0)) rest := by
      simp [mergeFields]
    rw [heq, mergeFields_lookup rest a _ k hnd2]
    by_cases hk : k0 = k
    · subst hk
      rw [lookup_none_of_notin rest k0 hk0]
      simp [lookupKey, lookup_setKey]
    · cases hlk : lookupKey rest k with
      | none => simp [lookupKey, hk, lookup_setKey, hlk]
      | some bv => simp [lookupKey, hk, hlk]

/-- C4: `deepMerge(a, b)` concatenates arrays, merges plain objects with key
set `keys(a) ∪ keys(b)` (recursively on shared keys, `b`'s value on keys only
in `b`, `a`'s value on keys only in `a`), and in every other case returns
`b`. -/
theorem c4_deepMerge :
    (∀ xs ys, deepMerge (.arr xs) (.arr ys) = .arr (xs ++ ys)) ∧
    (∀ fa fb, (fb.map Prod.fst).Nodup →
      ∃ fc, deepMerge (.obj fa) (.obj fb) = .obj fc ∧
        ∀ k, lookupKey fc k =
          match lookupKey fa k, lookupKey fb k with
          | some av, some bv => some (deepMerge av bv)
          | some av, none => some av
          | none, some bv => some bv
          | none, none => none) ∧
    (∀ a b, (∀ xs ys, ¬(a = .arr xs ∧ b = .arr ys)) →
      (∀ fa fb, ¬(a = .obj fa ∧ b = .obj fb)) → deepMerge a b = b) := by
  refine ⟨?_, ?_, ?_⟩
  · intro xs ys; simp [deepMerge]
  · intro fa fb hnd
    refine ⟨mergeFields fa fa fb, by simp [deepMerge], fun k => ?_⟩
    rw [mergeFields_lookup fb fa fa k hnd]
    cases hb : lookupKey fb k <;> cases ha : lookupKey fa k <;> simp [ha, hb]
  · intro a b h1 h2
    cases a <;> cases b <;> simp [deepMerge] <;> first
      | exact absurd ⟨rfl, rfl⟩ (h1 _ _)
      | exact absurd ⟨rfl, rfl⟩ (h2 _ _)

/-- C4 witness: a shared key, keys on each side only, an array pair and a
scalar pair. -/
theorem c4_deepMerge_witness :
    (([("shared", JVal.num 3), ("z", JVal.num 4)]).map Prod.fst).Nodup ∧
    (∃ fc, deepMerge (.obj [("x", .num 1), ("shared", .num 2)])
        (.obj [("shared", .num 3), ("z", .num 4)]) = .obj fc ∧
      ∀ k, lookupKey fc k =
        match lookupKey [("x", JVal.num 1), ("shared", JVal.num 2)] k,
          lookupKey [("shared", JVal.num 3), ("z", JVal.num 4)] k with
        | some av, some bv => some (deepMerge av bv)
        | some av, none => some av
        | none, some bv => some bv
        | none, none => none) ∧
    deepMerge (.arr [.num 1]) (.arr [.num 2]) = .arr [.num 1, .num 2] ∧
    deepMerge (.num 1) (.str "s") = .str "s" := by
  obtain ⟨p1, p2, p3⟩ := c4_deepMerge
  exact ⟨by decide, p2 _ _ (by decide), p1 [.num 1] [.num 2],
    p3 (.num 1) (.str "s") (fun xs ys h => JVal.noConfusion h.1)
      (fun fa fb h => JVal.noConfusion h.1)⟩

/-! ### Environment-merge lemmas (C8) -/

theorem applyEnvEntry_json (r : JVal) (v : String) :
    applyEnvEntry r ("GWACK_JSON", v) = some r := rfl

theorem fold_skip_json : ∀ (l : List (String × String)) (r : JVal),
    List.foldlM applyEnvEntry r l =
      List.foldlM applyEnvEntry r (l.filter (fun p => p.1 != "GWACK_JSON"))
  | [], r => rfl
  | (k, v) :: rest, r => by
    by_cases hk : k = "GWACK_JSON"
    · subst hk
      simp [List.foldlM, applyEnvEntry_json, fold_skip_json rest r]
    · have hb : ((k, v).1 != "GWACK_JSON") = true := by simp [hk]
      cases hx : applyEnvEntry r (k, v) with
      | none => simp [List.foldlM, hb, hx]
      | some r2 => simp [List.foldlM, hb, hx, fold_skip_json rest r2]

theorem envLookup_filter_json : ∀ l : List (String × String),
    envLookup (l.filter (fun p => p.1 != "GWACK_JSON")) "GWACK_JSON" = none
  | [] => rfl
  | (k, v) :: rest => by
    by_cases hk : k = "GWACK_JSON"
    · subst hk; simp [envLookup_filter_json rest]
    · have hb : ((k, v).1 != "GWACK_JSON") = true := by simp [hk]
      simp [hb, envLookup, hk, envLookup_filter_json rest]

/-- C8: a `GWACK_JSON` blob that fails to parse is silently ignored — the
merge behaves exactly as if the variable were absent — and a prefixed
per-key value that is none of the boolean literals, `null`, a numeric
string, or JSON parsing to an object stays the raw string. -/
theorem c8_env_failure_policy :
    (∀ (env : List (String × String)) (base : List (String × JVal)) (s : String),
      envLookup env "GWACK_JSON" = some s → jsonParse s = none →
      mergeEnvIntoRuntimeGwack env base =
        mergeEnvIntoRuntimeGwack (env.filter (fun p => p.1 != "GWACK_JSON")) base) ∧
    (∀ (base : List (String × JVal)) (s : String), jsonParse s = none →
      mergeEnvIntoRuntimeGwack [("GWACK_JSON", s)] base = some (.obj base)) ∧
    (∀ v : String, v ≠ "true" → v ≠ "false" → v ≠ "null" →
      ((numParse v).isSome && !(sTrim v).data.isEmpty) = false →
      (∀ p, jsonParse v = some p → typeofIsObject p = false) →
      coerce v = .str v) := by
  refine ⟨?_, ?_, ?_⟩
  · intro env base s h1 h2
    simp only [mergeEnvIntoRuntimeGwack, h1, h2, envLookup_filter_json, ite_self]
    exact fold_skip_json env (JVal.obj base)
  · intro base s h2
    have h1 : envLookup [("GWACK_JSON", s)] "GWACK_JSON" = some s := by
      simp [envLookup]
    simp only [mergeEnvIntoRuntimeGwack, h1, h2, ite_self]
    simp [List.foldlM, applyEnvEntry_json]
  · intro v h1 h2 h3 h4 h5
    simp only [coerce, if_neg h1, if_neg h2, if_neg h3, h4]
    cases hj : jsonParse v with
    | none => simp [hj]
    | some p => simp [hj, h5 p hj]

/-- C8 witness: a malformed blob next to an ordinary prefixed variable, and
an uncoercible per-key value. -/
theorem c8_env_failure_policy_witness :
    envLookup [("GWACK_JSON", "not-json"), ("GWACK_FOO", "bar")] "GWACK_JSON" =
      some "not-json" ∧
    jsonParse "not-json" = none ∧
    mergeEnvIntoRuntimeGwack [("GWACK_JSON", "not-json"), ("GWACK_FOO", "bar")]
        [("a", .num 1)] =
      mergeEnvIntoRuntimeGwack
        ([("GWACK_JSON", "not-json"), ("GWACK_FOO", "bar")].filter
          (fun p => p.1 != "GWACK_JSON")) [("a", .num 1)] ∧
    ((numParse "hello-world").isSome && !(sTrim "hello-world").data.isEmpty) = false ∧
    mergeEnvIntoRuntimeGwack [("GWACK_JSON", "not-json")] [("a", .num 1)] =
      some (.obj [("a", .num 1)]) ∧
    coerce "hello-world" = .str "hello-world" := by
  obtain ⟨p1, p2, p3⟩ := c8_env_failure_policy
  refine ⟨rfl, rfl, p1 _ _ "not-json" rfl rfl, by decide,
    p2 [("a", .num 1)] "not-json" rfl,
    p3 "hello-world" (by decide) (by decide) (by decide) (by decide) ?_⟩
  intro p h
  rw [show jsonParse "hello-world" = none from rfl] at h
  exact Option.noConfusion h

/-! ### Import-path uniqueness machinery (C3) -/

theorem wfEntry_validName : ∀ e : FsEntry, wfEntry e = true →
    validName (entryName e) = true
  | .file _, h => h
  | .dir _ _, h => by
    simp only [wfEntry, Bool.and_eq_true] at h
    exact h.1

theorem validName_ne_nil (n : String) (h : validName n = true) : n.data ≠ [] := by
  intro he
  simp [validName, he] at h

theorem validName_no_slash (n : String) (h : validName n = true) :
    ∀ c ∈ n.data, c ≠ '/' := by
  simp only [validName, Bool.and_eq_true, List.all_eq_true, decide_eq_true_eq] at h
  exact h.2

theorem pjoin_data_ne_nil (pre n : String) (h : validName n = true) :
    (pjoin pre n).data ≠ [] := by
  by_cases hp : pre = ""
  · simpa [pjoin, hp] using validName_ne_nil n h
  · simp [pjoin, hp, strDataAppend]

theorem pjoin_pos (X m : String) (hX : X ≠ "") : pjoin X m = X ++ "/" ++ m := by
  simp [pjoin, hX]

theorem pjoin_data_pos (pre m : String) (hp : pre ≠ "") :
    (pjoin pre m).data = pre.data ++ '/' :: m.data := by
  rw [pjoin_pos _ _ hp, strDataAppend, strDataAppend]
  rw [show ("/" : String).data = ['/'] from rfl]
  simp

theorem pjoin_data_nested (pre n m : String) (h : validName n = true) :
    (pjoin (pjoin pre n) m).data = (pjoin pre n).data ++ '/' :: m.data := by
  have hne : pjoin pre n ≠ "" := by
    intro he
    exact pjoin_data_ne_nil pre n h (by rw [he])
  rw [pjoin_pos _ _ hne, strDataAppend, strDataAppend]
  simp

theorem seg_eq : ∀ (xs ys t1 t2 : List Char),
    (∀ c ∈ xs, c ≠ '/') → (∀ c ∈ ys, c ≠ '/') →
    (t1 = [] ∨ ∃ r, t1 = '/' :: r) → (t2 = [] ∨ ∃ r, t2 = '/' :: r) →
    xs ++ t1 = ys ++ t2 → xs = ys
  | [], [], _, _, _, _, _, _, _ => rfl
  | [], y :: ys, t1, t2, _, hy, s1, _, he => by
    rcases s1 with rfl | ⟨r, rfl⟩
    · exact absurd he.symm (by simp)
    · rw [List.nil_append, List.cons_append] at he
      injection he with h1 _
      exact absurd h1.symm (hy y (by simp))
  | x :: xs, [], t1, t2, hx, _, _, s2, he => by
    rcases s2 with rfl | ⟨r, rfl⟩
    · exact absurd he (by simp)
    · rw [List.nil_append, List.cons_append] at he
      injection he with h1 _
      exact absurd h1 (hx x (by simp))
  | x :: xs, y :: ys, t1, t2, hx, hy, s1, s2, he => by
    rw [List.cons_append, List.cons_append] at he
    injection he with h1 h2
    subst h1
    rw [seg_eq xs ys t1 t2 (fun c hc => hx c (List.mem_cons_of_mem _ hc))
      (fun c hc => hy c (List.mem_cons_of_mem _ hc)) s1 s2 h2]

theorem owned_same_name (pre a b s : String) (ha : validName a = true)
    (hb : validName b = true) (h1 : ownedBy pre a s) (h2 : ownedBy pre b s) :
    a = b := by
  obtain ⟨t1, e1, s1⟩ := h1
  obtain ⟨t2, e2, s2⟩ := h2
  have e3 : "pages/".data ++ ((pjoin pre a).data ++ t1) =
      "pages/".data ++ ((pjoin pre b).data ++ t2) := by
    rw [← List.append_assoc, ← List.append_assoc, ← e1, ← e2]
  have e4 : (pjoin pre a).data ++ t1 = (pjoin pre b).data ++ t2 :=
    List.append_cancel_left e3
  by_cases hp : pre = ""
  · subst hp
    simp only [pjoin, if_pos rfl] at e4
    exact strExt a b (seg_eq a.data b.data t1 t2 (validName_no_slash a ha)
      (validName_no_slash b hb) s1 s2 e4)
  · simp only [pjoin_data_pos _ _ hp, List.append_assoc, List.cons_append] at e4
    have e5 := List.append_cancel_left e4
    injection e5 with _ e6
    exact strExt a b (seg_eq a.data b.data t1 t2 (validName_no_slash a ha)
      (validName_no_slash b hb) s1 s2 e6)

theorem owned_both : (∀ e, OwnedEntry e) ∧ (∀ l, OwnedDir l) := by
  have hf : ∀ n, OwnedEntry (.file n) := by
    intro n pre _ r hr
    by_cases hv : sEndsWith n ".vue"
    · simp only [entryRoutes, hv, if_true, List.mem_singleton] at hr
      subst hr
      refine ⟨[], ?_, Or.inl rfl⟩
      rw [List.append_nil]
      exact strDataAppend "pages/" (pjoin pre n)
    · simp [entryRoutes, hv] at hr
  have hd : ∀ n cs, OwnedDir cs → OwnedEntry (.dir n cs) := by
    intro n cs ih pre hwf r hr
    simp only [wfEntry, Bool.and_eq_true] at hwf
    obtain ⟨hval, hwd⟩ := hwf
    obtain ⟨e, _, hwfe, t, hdata, hsl⟩ := ih (pjoin pre n) hwd r hr
    rw [pjoin_data_nested pre n (entryName e) hval] at hdata
    show ownedBy pre n r.importPath
    refine ⟨'/' :: ((entryName e).data ++ t), ?_, Or.inr ⟨_, rfl⟩⟩
    rw [hdata]
    simp
  have h0 : OwnedDir .nil := by
    intro pre _ r hr
    cases hr
  have h1 : ∀ e es, OwnedEntry e → OwnedDir es → OwnedDir (.cons e es) := by
    intro e es ihE ihL pre hwf r hr
    simp only [wfDir, Bool.and_eq_true] at hwf
    obtain ⟨⟨hwe, _⟩, hwes⟩ := hwf
    rcases List.mem_append.mp hr with h | h
    · exact ⟨e, by simp [FsEntries.toList], hwe, ihE pre hwe r h⟩
    · obtain ⟨e2, he2, hh⟩ := ihL pre hwes r h
      exact ⟨e2, by simp [FsEntries.toList, he2], hh⟩
  exact ⟨fsIndE _ _ hf hd h0 h1, fsIndL _ _ hf hd h0 h1⟩

theorem nodup_both : (∀ e, NodupEntry e) ∧ (∀ l, NodupDir l) := by
  have hf : ∀ n, NodupEntry (.file n) := by
    intro n pre _
    by_cases hv : sEndsWith n ".vue" <;> simp [entryRoutes, hv]
  have hd : ∀ n cs, NodupDir cs → NodupEntry (.dir n cs) := by
    intro n cs ih pre hwf
    simp only [wfEntry, Bool.and_eq_true] at hwf
    exact ih (pjoin pre n) hwf.2
  have h0 : NodupDir .nil := by
    intro pre _
    simp [scanDirectory]
  have h1 : ∀ e es, NodupEntry e → NodupDir es → NodupDir (.cons e es) := by
    intro e es ihE ihL pre hwf
    simp only [wfDir, Bool.and_eq_true] at hwf
    obtain ⟨⟨hwe, hnames⟩, hwes⟩ := hwf
    show ((entryRoutes pre e ++ scanDirectory pre es).map Route.importPath).Nodup
    rw [List.map_append, List.nodup_append]
    refine ⟨ihE pre hwe, ihL pre hwes, ?_⟩
    intro s hs1 hs2
    obtain ⟨r1, hr1, hip1⟩ := List.mem_map.mp hs1
    obtain ⟨r2, hr2, hip2⟩ := List.mem_map.mp hs2
    have o1 := owned_both.1 e pre hwe r1 hr1
    obtain ⟨e2, he2, hwfe2, o2⟩ := owned_both.2 es pre hwes r2 hr2
    rw [hip1] at o1
    rw [hip2] at o2
    have heq := owned_same_name pre (entryName e) (entryName e2) s
      (wfEntry_validName e hwe) (wfEntry_validName e2 hwfe2) o1 o2
    simp only [List.all_eq_true, decide_eq_true_eq] at hnames
    exact hnames (entryName e2) (List.mem_map_of_mem entryName he2) heq.symm
  exact ⟨fsIndE _ _ hf hd h0 h1, fsIndL _ _ hf hd h0 h1⟩

/-- C3 (amended): route paths are NOT unique for every tree — a tree holding
both `<name>.vue` and `<name>/index.vue` produces two routes with the same
path (see the counterexample) — but for every well-formed tree no two routes
share the same component reference (`importPath`): distinct files always
yield distinct routes. -/
theorem c3_amended (pd : Option FsEntries) (h : wfPages pd = true) :
    ((generateRoutes pd).map Route.importPath).Nodup := by
  cases pd with
  | none => simp [generateRoutes]
  | some l => exact nodup_both.2 l "" h

/-- C3 witness: the standard example tree is well-formed and its import
paths are pairwise distinct. -/
theorem c3_amended_witness :
    wfPages (some rootC) = true ∧
    ((generateRoutes (some rootC)).map Route.importPath).Nodup :=
  ⟨rfl, c3_amended (some rootC) rfl⟩
